import Mathlib

/-!
Shallow embedding of `src/sparse/csmat.rs` (compressed sparse row/column
matrix) together with its two spec-described collaborators, the permutation
and the sparse vector view.  Rust `usize` values are modelled as `Nat`
(the code performs no arithmetic that can overflow a 64-bit counter for the
list sizes involved, and all comparisons are order comparisons), slices as
`List`, and panics as the `.error` branch of `Except String`.
-/

namespace Sprs

instance {ε α : Type} [DecidableEq ε] [DecidableEq α] :
    DecidableEq (Except ε α) := fun x y =>
  match x, y with
  | Except.ok a, Except.ok b =>
    if h : a = b then isTrue (by rw [h]) else
      isFalse (fun hc => h (by injection hc))
  | Except.error a, Except.error b =>
    if h : a = b then isTrue (by rw [h]) else
      isFalse (fun hc => h (by injection hc))
  | Except.ok _, Except.error _ => isFalse (fun hc => by injection hc)
  | Except.error _, Except.ok _ => isFalse (fun hc => by injection hc)

/-- Storage order of a compressed matrix (`CompressedStorage` in the source). -/
inductive CompressedStorage where
  | CSR : CompressedStorage
  | CSC : CompressedStorage
deriving DecidableEq

export CompressedStorage (CSR CSC)

/-- The outer dimension determined by a storage order: rows for CSR,
columns for CSC. -/
@[reducible] def outerDimOf (storage : CompressedStorage)
    (nrows ncols : Nat) : Nat :=
  match storage with
  | CSR => nrows
  | CSC => ncols

/-- The inner dimension determined by a storage order: columns for CSR,
rows for CSC. -/
@[reducible] def innerDimOf (storage : CompressedStorage)
    (nrows ncols : Nat) : Nat :=
  match storage with
  | CSR => ncols
  | CSC => nrows

/-- Modelled from the spec: the `Permutation` collaborator
(`sparse::permutation`, not under `src/`).  The spec (§6) requires
`at(outer_index) -> outer_index`, an inversion operation producing the
inverse permutation, and an identity permutation.  A finite permutation
carries its forward and backward index tables so that inversion is the
swap of the two tables. -/
inductive Perm where
  | id : Perm
  | finite (fwd : List Nat) (bwd : List Nat) : Perm
deriving DecidableEq

/-- Modelled from the spec: applying a permutation to an outer index. -/
def Perm.atIdx : Perm → Nat → Nat
  | Perm.id, k => k
  | Perm.finite fwd _, k => fwd.getD k 0

/-- Modelled from the spec: the inversion operation (`Permutation::inv`). -/
def Perm.inv : Perm → Perm
  | Perm.id => Perm.id
  | Perm.finite fwd bwd => Perm.finite bwd fwd

/-- Modelled from the spec: the sparse row/column view collaborator
(`CsVec` from `sparse::vec`, not under `src/`): borrowed index and value
slices plus the currently active permutation (§6, §4.3). -/
structure CsVec (N : Type) where
  indices : List Nat
  data : List N
  perm : Perm
deriving DecidableEq

/-- Adjacent-pairs strict ascent, `windows(2).all(|x| x[0] < x[1])`. -/
def strictAscB : List Nat → Bool
  | a :: b :: rest => decide (a < b) && strictAscB (b :: rest)
  | _ => true

/-- Modelled from the spec: the view's structural self-check used by the
validator — strictly ascending indices (§6). -/
def CsVec.check_structure {N : Type} (v : CsVec N) : Bool :=
  strictAscB v.indices

/-- Adjacent-pairs non-decrease, `windows(2).all(|x| x[0] <= x[1])`. -/
def adjacentLE : List Nat → Bool
  | a :: b :: rest => decide (a ≤ b) && adjacentLE (b :: rest)
  | _ => true

/-- `iter().max()` of a Rust iterator over a list: `none` on an empty
list, otherwise the greatest element. -/
def maxOfList : List Nat → Option Nat
  | [] => none
  | x :: xs => some (xs.foldl Nat.max x)

/-- The Rust slice `l[b..e]` (total model; the panic conditions are
checked explicitly at each use site that can reach them). -/
def listSlice {α : Type} (l : List α) (b e : Nat) : List α :=
  (l.drop b).take (e - b)

/-- The compressed matrix container (`CsMat` in the source).  The two Rust
ownership modes (borrowed slices / owned vectors) both deref to the same
slice contents, modelled once as lists. -/
structure CsMat (N : Type) where
  storage : CompressedStorage
  nrows : Nat
  ncols : Nat
  nnz : Nat
  indptr : List Nat
  indices : List Nat
  data : List N
  perm_identity : Perm
deriving DecidableEq

/-- The inner dimension, as computed at the top of
`check_compressed_structure`. -/
def CsMat.innerDim {N : Type} (m : CsMat N) : Nat :=
  match m.storage with
  | CSR => m.ncols
  | CSC => m.nrows

/-- The outer dimension, as computed at the top of
`check_compressed_structure`. -/
def CsMat.outerDim {N : Type} (m : CsMat N) : Nat :=
  match m.storage with
  | CSR => m.nrows
  | CSC => m.ncols

/-- The `OuterIterator` of the source: a double-ended cursor over the
`enumerate()`d `windows(2)` of `indptr`, plus borrowed `indices`, `data`
and the oriented permutation.  `front`/`back` delimit the window positions
not yet consumed (`back` exclusive). -/
structure OuterIterator (N : Type) where
  front : Nat
  back : Nat
  indptr : List Nat
  indices : List Nat
  data : List N
  perm : Perm
deriving DecidableEq

/-- The item yielded for window position `k`: window `(indptr[k],
indptr[k+1])`, permuted outer index `perm.at(k)`, and the sliced view. -/
def OuterIterator.item {N : Type} (it : OuterIterator N) (k : Nat) :
    Nat × CsVec N :=
  let b := it.indptr.getD k 0
  let e := it.indptr.getD (k + 1) 0
  (it.perm.atIdx k,
   { indices := listSlice it.indices b e,
     data := listSlice it.data b e,
     perm := it.perm })

/-- `Iterator::next`: consume the frontmost remaining window. -/
def OuterIterator.next {N : Type} (it : OuterIterator N) :
    Option ((Nat × CsVec N) × OuterIterator N) :=
  if it.front < it.back then
    some (it.item it.front, { it with front := it.front + 1 })
  else none

/-- `DoubleEndedIterator::next_back`: consume the backmost remaining
window. -/
def OuterIterator.next_back {N : Type} (it : OuterIterator N) :
    Option ((Nat × CsVec N) × OuterIterator N) :=
  if it.front < it.back then
    some (it.item (it.back - 1), { it with back := it.back - 1 })
  else none

/-- Structural-fuel worker for `collectFwd`; the fuel is an upper bound
on the remaining window count, consumed one step per `next()`. -/
def collectFwdAux {N : Type} : Nat → OuterIterator N → List (Nat × CsVec N)
  | 0, _ => []
  | fuel + 1, it =>
    if it.front < it.back then
      it.item it.front :: collectFwdAux fuel { it with front := it.front + 1 }
    else []

/-- Collect the iterator by repeated `next()` (what `for`/`all`/`collect`
do in the source). -/
def collectFwd {N : Type} (it : OuterIterator N) : List (Nat × CsVec N) :=
  collectFwdAux (it.back - it.front) it

/-- Structural-fuel worker for `collectRev`. -/
def collectRevAux {N : Type} : Nat → OuterIterator N → List (Nat × CsVec N)
  | 0, _ => []
  | fuel + 1, it =>
    if it.front < it.back then
      it.item (it.back - 1) :: collectRevAux fuel { it with back := it.back - 1 }
    else []

/-- Collect the iterator by repeated `next_back()` (what `rev().collect()`
does in the source). -/
def collectRev {N : Type} (it : OuterIterator N) : List (Nat × CsVec N) :=
  collectRevAux (it.back - it.front) it

/-- `CsMat::outer_iterator_papt`: the permutation is used directly for
row-major storage and inverted for column-major storage, and the cursor
starts over all `indptr.windows(2)` positions. -/
def CsMat.outer_iterator_papt {N : Type} (m : CsMat N) (perm : Perm) :
    OuterIterator N :=
  { front := 0,
    back := m.indptr.length - 1,
    indptr := m.indptr,
    indices := m.indices,
    data := m.data,
    perm :=
      match m.storage with
      | CSR => perm
      | CSC => Perm.inv perm }

/-- `CsMat::outer_iterator`: delegates to `outer_iterator_papt` with the
stored identity permutation. -/
def CsMat.outer_iterator {N : Type} (m : CsMat N) : OuterIterator N :=
  m.outer_iterator_papt m.perm_identity

/-- Outcome of `check_compressed_structure`: `Some(nnz)` on success, a
printed diagnostic followed by `None` on a failed check, or a Rust panic
(the `unwrap()` of `None` that `iter().max()` yields on an empty
sequence). -/
inductive CheckOutcome where
  | ok (nnz : Nat) : CheckOutcome
  | fail (diag : String) : CheckOutcome
  | panicked (msg : String) : CheckOutcome
deriving DecidableEq

/-- The message of the panic raised by `Option::unwrap` on `None`. -/
def unwrapNoneMsg : String := "called Option::unwrap() on a None value"

/-- `CsMat::check_compressed_structure`, check for check in source order:
indptr length, indices/data length equality, stored nnz, `max(indptr)`
bound, `max(indices)` bound, indptr sortedness, per-outer-slice strict
sortedness (the last one delegated to each yielded view's
`check_structure`). -/
def CsMat.check_compressed_structure {N : Type} (m : CsMat N) :
    CheckOutcome :=
  if m.indptr.length ≠ m.outerDim + 1 then
    CheckOutcome.fail "CsMat indptr length incorrect"
  else if m.indices.length ≠ m.data.length then
    CheckOutcome.fail "CsMat indices/data length incorrect"
  else if m.indices.length ≠ m.nnz then
    CheckOutcome.fail "CsMat nnz count incorrect"
  else
    match maxOfList m.indptr with
    | none => CheckOutcome.panicked unwrapNoneMsg
    | some mxp =>
      if mxp > m.indices.length then
        CheckOutcome.fail "CsMat indptr values incoherent with nnz"
      else
        match maxOfList m.indices with
        | none => CheckOutcome.panicked unwrapNoneMsg
        | some mxi =>
          if mxi ≥ m.innerDim then
            CheckOutcome.fail "CsMat indices values incoherent with ncols"
          else if ¬ adjacentLE m.indptr then
            CheckOutcome.fail "CsMat indptr not sorted"
          else if ¬ (collectFwd m.outer_iterator).all
              (fun p => p.2.check_structure) then
            CheckOutcome.fail "CsMat indices not sorted for each outer ind"
          else
            CheckOutcome.ok m.indices.length

/-- The record `from_slices`/`from_vecs` build before validating: `nnz`
is `data.len()` and the stored permutation is the identity. -/
def mkMat {N : Type} (storage : CompressedStorage) (nrows ncols : Nat)
    (indptr indices : List Nat) (data : List N) : CsMat N :=
  { storage := storage, nrows := nrows, ncols := ncols,
    nnz := data.length, indptr := indptr, indices := indices,
    data := data, perm_identity := Perm.id }

theorem mkMat_storage {N : Type} (st : CompressedStorage) (nr nc : Nat)
    (ip ix : List Nat) (d : List N) :
    (mkMat st nr nc ip ix d).storage = st := rfl

theorem mkMat_indptr {N : Type} (st : CompressedStorage) (nr nc : Nat)
    (ip ix : List Nat) (d : List N) :
    (mkMat st nr nc ip ix d).indptr = ip := rfl

theorem mkMat_indices {N : Type} (st : CompressedStorage) (nr nc : Nat)
    (ip ix : List Nat) (d : List N) :
    (mkMat st nr nc ip ix d).indices = ix := rfl

theorem mkMat_data {N : Type} (st : CompressedStorage) (nr nc : Nat)
    (ip ix : List Nat) (d : List N) :
    (mkMat st nr nc ip ix d).data = d := rfl

theorem mkMat_nnz {N : Type} (st : CompressedStorage) (nr nc : Nat)
    (ip ix : List Nat) (d : List N) :
    (mkMat st nr nc ip ix d).nnz = d.length := rfl

theorem mkMat_nrows {N : Type} (st : CompressedStorage) (nr nc : Nat)
    (ip ix : List Nat) (d : List N) :
    (mkMat st nr nc ip ix d).nrows = nr := rfl

theorem mkMat_ncols {N : Type} (st : CompressedStorage) (nr nc : Nat)
    (ip ix : List Nat) (d : List N) :
    (mkMat st nr nc ip ix d).ncols = nc := rfl

theorem mkMat_perm_identity {N : Type} (st : CompressedStorage)
    (nr nc : Nat) (ip ix : List Nat) (d : List N) :
    (mkMat st nr nc ip ix d).perm_identity = Perm.id := rfl

theorem mkMat_outerDim {N : Type} (st : CompressedStorage) (nr nc : Nat)
    (ip ix : List Nat) (d : List N) :
    (mkMat st nr nc ip ix d).outerDim = outerDimOf st nr nc := by
  cases st <;> rfl

theorem mkMat_innerDim {N : Type} (st : CompressedStorage) (nr nc : Nat)
    (ip ix : List Nat) (d : List N) :
    (mkMat st nr nc ip ix d).innerDim = innerDimOf st nr nc := by
  cases st <;> rfl

/-- `CsMat::from_slices`: build the candidate record (with `nnz :=
data.len()` and the identity permutation) and validate it.  A `.error`
result models the panic that `check_compressed_structure` can raise; a
`.ok none` result is the `None` return. -/
def CsMat.from_slices {N : Type} (storage : CompressedStorage)
    (nrows ncols : Nat) (indptr indices : List Nat) (data : List N) :
    Except String (Option (CsMat N)) :=
  match (mkMat storage nrows ncols indptr indices data).check_compressed_structure with
  | CheckOutcome.ok _ => Except.ok (some (mkMat storage nrows ncols indptr indices data))
  | CheckOutcome.fail _ => Except.ok none
  | CheckOutcome.panicked msg => Except.error msg

/-- `CsMat::from_vecs`: identical contract and body as `from_slices`, on
owned buffers. -/
def CsMat.from_vecs {N : Type} (storage : CompressedStorage)
    (nrows ncols : Nat) (indptr indices : List Nat) (data : List N) :
    Except String (Option (CsMat N)) :=
  match (mkMat storage nrows ncols indptr indices data).check_compressed_structure with
  | CheckOutcome.ok _ => Except.ok (some (mkMat storage nrows ncols indptr indices data))
  | CheckOutcome.fail _ => Except.ok none
  | CheckOutcome.panicked msg => Except.error msg

/-- The loop of Rust `slice::binary_search` on `xs[left..right)`:
`mid = left + (right - left) / 2`, move `left` past `mid` when
`xs[mid] < target`, shrink `right` to `mid` when `xs[mid] > target`,
return the position on equality.  `none` models `Err(_)`.  The fuel is
an upper bound on `right - left`, the loop variant. -/
def bsAux (xs : List Nat) (target : Nat) : Nat → Nat → Nat → Option Nat
  | 0, _, _ => none
  | fuel + 1, left, right =>
    if left < right then
      let mid := left + (right - left) / 2
      let v := xs.getD mid 0
      if v < target then bsAux xs target fuel (mid + 1) right
      else if target < v then bsAux xs target fuel left mid
      else some mid
    else none

/-- `slice::binary_search` over a whole list. -/
def binarySearch (xs : List Nat) (target : Nat) : Option Nat :=
  bsAux xs target xs.length 0 xs.length

/-- The assertion-failure messages of `CsMat::at`. -/
def assertRowMsg : String := "assertion failed: i < self.nrows"

/-- See `assertRowMsg`. -/
def assertColMsg : String := "assertion failed: j < self.ncols"

/-- The panic message of an out-of-bounds index `v[i]`. -/
def indexOobMsg : String := "index out of bounds"

/-- The panic message of an out-of-range slice `v[b..e]`. -/
def sliceOobMsg : String := "slice index out of range"

/-- `CsMat::at_outer_inner`: read `indptr[outer]` and `indptr[outer+1]`
(panicking if out of bounds), return `None` for an empty outer slice,
slice `indices` and `data` (panicking if the end is out of range),
binary-search the inner coordinate and index `data` at the hit. -/
def CsMat.at_outer_inner {N : Type} (m : CsMat N)
    (outer_ind inner_ind : Nat) : Except String (Option N) :=
  match m.indptr.get? outer_ind with
  | none => Except.error indexOobMsg
  | some b =>
    match m.indptr.get? (outer_ind + 1) with
    | none => Except.error indexOobMsg
    | some e =>
      if b ≥ e then Except.ok none
      else if e ≤ m.indices.length then
        if e ≤ m.data.length then
          match binarySearch (listSlice m.indices b e) inner_ind with
          | some position =>
            match (listSlice m.data b e).get? position with
            | some v => Except.ok (some v)
            | none => Except.error indexOobMsg
          | none => Except.ok none
        else Except.error sliceOobMsg
      else Except.error sliceOobMsg

/-- `CsMat::at`: assert both coordinates in range, then map `(i, j)` to
`(outer, inner)` according to the storage order and delegate. -/
def CsMat.atIJ {N : Type} (m : CsMat N) (i j : Nat) :
    Except String (Option N) :=
  if i < m.nrows then
    if j < m.ncols then
      match m.storage with
      | CSR => m.at_outer_inner i j
      | CSC => m.at_outer_inner j i
    else Except.error assertColMsg
  else Except.error assertRowMsg

/-- First-match linear lookup of an inner coordinate in a pair of
positionally aligned lists: the reference meaning of "the stored value". -/
def linearLookup {N : Type} : List Nat → List N → Nat → Option N
  | [], _, _ => none
  | _ :: _, [], _ => none
  | i :: is, v :: vs, t => if i = t then some v else linearLookup is vs t

/-- The value explicitly stored at `(outer, inner)`: linear scan of the
outer slice delimited by `indptr`. -/
def CsMat.storedValue {N : Type} (m : CsMat N) (outer inner : Nat) :
    Option N :=
  linearLookup
    (listSlice m.indices (m.indptr.getD outer 0) (m.indptr.getD (outer + 1) 0))
    (listSlice m.data (m.indptr.getD outer 0) (m.indptr.getD (outer + 1) 0))
    inner

/-- Invariant (1) of the spec: `indptr.len() == outer_dim + 1`. -/
@[reducible] def specInv1 (storage : CompressedStorage) (nrows ncols : Nat)
    (indptr : List Nat) : Prop :=
  indptr.length = outerDimOf storage nrows ncols + 1

/-- Invariant (2) of the spec: `indices.len() == data.len() == nnz`
(`nnz` being the stored-entry count, `data.len()` at construction). -/
@[reducible] def specInv2 {N : Type} (indices : List Nat) (data : List N) : Prop :=
  indices.length = data.length

/-- Invariant (3) of the spec: `max(indptr) <= nnz`. -/
@[reducible] def specInv3 {N : Type} (indptr : List Nat) (data : List N) : Prop :=
  ∀ x ∈ indptr, x ≤ data.length

/-- Invariant (4) of the spec: `max(indices) < inner_dim`. -/
@[reducible] def specInv4 (storage : CompressedStorage) (nrows ncols : Nat)
    (indices : List Nat) : Prop :=
  ∀ x ∈ indices, x < innerDimOf storage nrows ncols

/-- Invariant (5) of the spec: `indptr` non-decreasing over adjacent
pairs. -/
@[reducible] def specInv5 (indptr : List Nat) : Prop :=
  ∀ k < indptr.length - 1, indptr.getD k 0 ≤ indptr.getD (k + 1) 0

/-- An adjacent-pairs strictly ascending list, as a bounded quantifier. -/
@[reducible] def StrictAsc (l : List Nat) : Prop :=
  ∀ k < l.length - 1, l.getD k 0 < l.getD (k + 1) 0

/-- Invariant (6) of the spec: each outer slice of `indices` is strictly
ascending. -/
@[reducible] def specInv6 (storage : CompressedStorage) (nrows ncols : Nat)
    (indptr indices : List Nat) : Prop :=
  ∀ k < outerDimOf storage nrows ncols,
    StrictAsc (listSlice indices (indptr.getD k 0) (indptr.getD (k + 1) 0))

/-- The six structural invariants of the spec (§3), stated on the raw
construction input. -/
@[reducible] def SpecInvariants {N : Type} (storage : CompressedStorage)
    (nrows ncols : Nat) (indptr indices : List Nat) (data : List N) :
    Prop :=
  specInv1 storage nrows ncols indptr ∧
  specInv2 indices data ∧
  specInv3 indptr data ∧
  specInv4 storage nrows ncols indices ∧
  specInv5 indptr ∧
  specInv6 storage nrows ncols indptr indices

/-- All facts established by a successful run of
`check_compressed_structure`, phrased on the matrix fields. -/
def ValidFacts {N : Type} (m : CsMat N) : Prop :=
  m.indptr.length = m.outerDim + 1 ∧
  m.indices.length = m.data.length ∧
  m.indices.length = m.nnz ∧
  (∀ x ∈ m.indptr, x ≤ m.indices.length) ∧
  (∀ x ∈ m.indices, x < m.innerDim) ∧
  (∀ i < m.indptr.length - 1,
    m.indptr.getD i 0 ≤ m.indptr.getD (i + 1) 0) ∧
  (∀ k < m.indptr.length - 1,
    StrictAsc (listSlice m.indices (m.indptr.getD k 0)
      (m.indptr.getD (k + 1) 0)))

/-- The seven diagnostics `check_compressed_structure` can print, in
check order. -/
def sevenDiagnostics : List String :=
  ["CsMat indptr length incorrect",
   "CsMat indices/data length incorrect",
   "CsMat nnz count incorrect",
   "CsMat indptr values incoherent with nnz",
   "CsMat indices values incoherent with ncols",
   "CsMat indptr not sorted",
   "CsMat indices not sorted for each outer ind"]

/-! ### Basic list lemmas -/

theorem get?_eq_getD {α : Type} {l : List α} {n : Nat} (d : α)
    (h : n < l.length) : l.get? n = some (l.getD n d) := by
  rw [List.getD_eq_get? ]
  cases hg : l.get? n with
  | none => exact absurd (List.get?_eq_none.mp hg) (by omega)
  | some v => rfl

theorem foldl_max_le {l : List Nat} {a b : Nat} (ha : a ≤ b)
    (hl : ∀ x ∈ l, x ≤ b) : l.foldl Nat.max a ≤ b := by
  induction l generalizing a with
  | nil => exact ha
  | cons x xs ih =>
    exact ih (by
      have := hl x (by simp)
      simp only [Nat.max_le]
      exact ⟨ha, this⟩) (fun y hy => hl y (by simp [hy]))

theorem le_foldl_max {l : List Nat} (a : Nat) :
    a ≤ l.foldl Nat.max a ∧ ∀ x ∈ l, x ≤ l.foldl Nat.max a := by
  induction l generalizing a with
  | nil => exact ⟨Nat.le_refl a, by simp⟩
  | cons x xs ih =>
    refine ⟨?_, ?_⟩
    · exact Nat.le_trans (Nat.le_max_left a x) (ih (Nat.max a x)).1
    · intro y hy
      rcases List.mem_cons.mp hy with rfl | hy
      · exact Nat.le_trans (Nat.le_max_right a y) (ih (Nat.max a y)).1
      · exact (ih (Nat.max a x)).2 y hy

theorem foldl_max_mem {l : List Nat} (a : Nat) :
    l.foldl Nat.max a = a ∨ l.foldl Nat.max a ∈ l := by
  induction l generalizing a with
  | nil => exact Or.inl rfl
  | cons x xs ih =>
    have hfold : (x :: xs).foldl Nat.max a = xs.foldl Nat.max (Nat.max a x) :=
      rfl
    rcases ih (Nat.max a x) with h | h
    · rw [hfold, h]
      rcases Nat.le_total a x with hax | hax
      · have hx : Nat.max a x = x :=
          Nat.le_antisymm (Nat.max_le.mpr ⟨hax, Nat.le_refl x⟩)
            (Nat.le_max_right a x)
        rw [hx]
        exact Or.inr (by simp)
      · have hx : Nat.max a x = a :=
          Nat.le_antisymm (Nat.max_le.mpr ⟨Nat.le_refl a, hax⟩)
            (Nat.le_max_left a x)
        rw [hx]
        exact Or.inl rfl
    · rw [hfold]
      exact Or.inr (by simp [h])

theorem maxOfList_le {l : List Nat} {mx : Nat}
    (h : maxOfList l = some mx) : ∀ x ∈ l, x ≤ mx := by
  cases l with
  | nil => simp [maxOfList] at h
  | cons a as =>
    simp only [maxOfList, Option.some.injEq] at h
    subst h
    intro x hx
    rcases List.mem_cons.mp hx with rfl | hx
    · exact (le_foldl_max x).1
    · exact (le_foldl_max a).2 x hx

theorem maxOfList_mem {l : List Nat} {mx : Nat}
    (h : maxOfList l = some mx) : mx ∈ l := by
  cases l with
  | nil => simp [maxOfList] at h
  | cons a as =>
    simp only [maxOfList, Option.some.injEq] at h
    subst h
    rcases foldl_max_mem (l := as) a with h | h
    · simp [h]
    · simp [h]

theorem maxOfList_of_ne_nil {l : List Nat} (h : l ≠ []) :
    ∃ mx, maxOfList l = some mx := by
  cases l with
  | nil => exact absurd rfl h
  | cons a as => exact ⟨as.foldl Nat.max a, rfl⟩

theorem adjacentLE_iff (l : List Nat) :
    adjacentLE l = true ↔ ∀ k < l.length - 1, l.getD k 0 ≤ l.getD (k + 1) 0 := by
  induction l with
  | nil => simp [adjacentLE]
  | cons a as ih =>
    cases as with
    | nil => simp [adjacentLE]
    | cons b bs =>
      rw [adjacentLE, Bool.and_eq_true, decide_eq_true_iff, ih]
      constructor
      · rintro ⟨hab, hrest⟩ k hk
        cases k with
        | zero => exact hab
        | succ k => exact hrest k (by simp at hk ⊢; omega)
      · intro h
        refine ⟨h 0 (by simp), fun k hk => h (k + 1) ?_⟩
        simp at hk ⊢
        omega

theorem strictAscB_iff (l : List Nat) :
    strictAscB l = true ↔ StrictAsc l := by
  induction l with
  | nil => simp [strictAscB, StrictAsc]
  | cons a as ih =>
    cases as with
    | nil => simp [strictAscB, StrictAsc]
    | cons b bs =>
      rw [strictAscB, Bool.and_eq_true, decide_eq_true_iff, ih]
      constructor
      · rintro ⟨hab, hrest⟩ k hk
        cases k with
        | zero => exact hab
        | succ k => exact hrest k (by simp at hk ⊢; omega)
      · intro h
        refine ⟨h 0 (by simp), fun k hk => h (k + 1) ?_⟩
        simp at hk ⊢
        omega

theorem strictAsc_getD_lt {l : List Nat} (h : StrictAsc l) :
    ∀ i j, i < j → j < l.length → l.getD i 0 < l.getD j 0 := by
  intro i j
  induction j with
  | zero => omega
  | succ j ih =>
    intro hij hj
    rcases Nat.lt_or_ge i j with h1 | h2
    · exact Nat.lt_trans (ih h1 (by omega)) (h j (by omega))
    · have : i = j := by omega
      subst this
      exact h i (by omega)

theorem listSlice_length {α : Type} (l : List α) (b e : Nat) :
    (listSlice l b e).length = min (e - b) (l.length - b) := by
  simp [listSlice]

theorem listSlice_get? {α : Type} (l : List α) (b e k : Nat)
    (hk : k < e - b) (hl : b + k < l.length) :
    (listSlice l b e).get? k = l.get? (b + k) := by
  rw [listSlice, List.get?_take hk, List.get?_drop]

/-! ### Iterator collection structure -/

theorem item_set_front {N : Type} (it : OuterIterator N) (f : Nat) :
    OuterIterator.item { it with front := f } = it.item := rfl

theorem item_set_back {N : Type} (it : OuterIterator N) (b : Nat) :
    OuterIterator.item { it with back := b } = it.item := rfl

theorem collectFwdAux_eq_map {N : Type} :
    ∀ (fuel : Nat) (it : OuterIterator N), it.back - it.front ≤ fuel →
    collectFwdAux fuel it =
      (List.range' it.front (it.back - it.front)).map it.item := by
  intro fuel
  induction fuel with
  | zero =>
    intro it h
    have : it.back - it.front = 0 := by omega
    rw [this]
    rfl
  | succ fuel ih =>
    intro it h
    by_cases hfb : it.front < it.back
    · have hn : it.back - it.front = (it.back - (it.front + 1)) + 1 := by
        omega
      rw [collectFwdAux, if_pos hfb, hn, List.range'_succ, List.map_cons]
      have := ih { it with front := it.front + 1 } (by simp; omega)
      rw [item_set_front] at this
      simp only [this]
    · have : it.back - it.front = 0 := by omega
      rw [collectFwdAux, if_neg hfb, this]
      rfl

theorem collectFwd_eq_map {N : Type} (it : OuterIterator N) :
    collectFwd it = (List.range' it.front (it.back - it.front)).map it.item :=
  collectFwdAux_eq_map (it.back - it.front) it (Nat.le_refl _)

theorem collectRevAux_eq_map {N : Type} :
    ∀ (fuel : Nat) (it : OuterIterator N), it.back - it.front ≤ fuel →
    collectRevAux fuel it =
      ((List.range' it.front (it.back - it.front)).map it.item).reverse := by
  intro fuel
  induction fuel with
  | zero =>
    intro it h
    have : it.back - it.front = 0 := by omega
    rw [this]
    rfl
  | succ fuel ih =>
    intro it h
    by_cases hfb : it.front < it.back
    · have hn : it.back - it.front = (it.back - 1 - it.front) + 1 := by omega
      rw [collectRevAux, if_pos hfb, hn, List.range'_1_concat, List.map_append,
        List.reverse_append]
      have := ih { it with back := it.back - 1 } (by simp; omega)
      rw [item_set_back] at this
      simp only [this]
      have hix : it.front + (it.back - 1 - it.front) = it.back - 1 := by omega
      simp [hix]
    · have : it.back - it.front = 0 := by omega
      rw [collectRevAux, if_neg hfb, this]
      rfl

theorem collectRev_eq_map {N : Type} (it : OuterIterator N) :
    collectRev it =
      ((List.range' it.front (it.back - it.front)).map it.item).reverse :=
  collectRevAux_eq_map (it.back - it.front) it (Nat.le_refl _)

theorem collectRev_eq_reverse_collectFwd {N : Type} (it : OuterIterator N) :
    collectRev it = (collectFwd it).reverse := by
  rw [collectRev_eq_map, collectFwd_eq_map]

/-! ### Binary search -/

theorem bsAux_sound (xs : List Nat) (t : Nat) :
    ∀ (fuel left right i : Nat), bsAux xs t fuel left right = some i →
    left ≤ i ∧ i < right ∧ xs.getD i 0 = t := by
  intro fuel
  induction fuel with
  | zero => intro l r i h; exact absurd h (by simp [bsAux])
  | succ fuel ih =>
    intro l r i h
    rw [bsAux] at h
    by_cases hlr : l < r
    · rw [if_pos hlr] at h
      simp only at h
      have hmid1 : l ≤ l + (r - l) / 2 := Nat.le_add_right l _
      have hmid2 : l + (r - l) / 2 < r := by omega
      by_cases h1 : xs.getD (l + (r - l) / 2) 0 < t
      · rw [if_pos h1] at h
        have := ih _ _ _ h
        omega
      · rw [if_neg h1] at h
        by_cases h2 : t < xs.getD (l + (r - l) / 2) 0
        · rw [if_pos h2] at h
          have := ih _ _ _ h
          omega
        · rw [if_neg h2] at h
          have hi : i = l + (r - l) / 2 := by
            injection h with h
            omega
          subst hi
          exact ⟨hmid1, hmid2, by omega⟩
    · rw [if_neg hlr] at h
      exact absurd h (by simp)

theorem bsAux_complete (xs : List Nat) (t : Nat) (hasc : StrictAsc xs) :
    ∀ (fuel left right : Nat), right - left ≤ fuel → right ≤ xs.length →
    (∃ k, left ≤ k ∧ k < right ∧ xs.getD k 0 = t) →
    bsAux xs t fuel left right ≠ none := by
  intro fuel
  induction fuel with
  | zero =>
    rintro l r hf hr ⟨k, hk1, hk2, hk3⟩
    omega
  | succ fuel ih =>
    rintro l r hf hr ⟨k, hk1, hk2, hk3⟩
    have hlr : l < r := by omega
    rw [bsAux, if_pos hlr]
    simp only
    set mid := l + (r - l) / 2 with hmid
    have hmid2 : mid < r := by omega
    by_cases h1 : xs.getD mid 0 < t
    · rw [if_pos h1]
      have hkmid : mid < k := by
        by_contra hc
        push_neg at hc
        rcases Nat.lt_or_ge k mid with hlt | hge
        · have := strictAsc_getD_lt hasc k mid hlt (by omega)
          omega
        · have : k = mid := by omega
          subst this
          omega
      exact ih (mid + 1) r (by omega) hr ⟨k, by omega, hk2, hk3⟩
    · rw [if_neg h1]
      by_cases h2 : t < xs.getD mid 0
      · rw [if_pos h2]
        have hkmid : k < mid := by
          by_contra hc
          push_neg at hc
          rcases Nat.lt_or_ge mid k with hlt | hge
          · have := strictAsc_getD_lt hasc mid k hlt (by omega)
            omega
          · have : k = mid := by omega
            subst this
            omega
        exact ih l mid (by omega) (by omega) ⟨k, hk1, hkmid, hk3⟩
      · rw [if_neg h2]
        simp

/-! ### Linear lookup against the sorted slice -/

theorem getD_mem {α : Type} (l : List α) (n : Nat) (d : α)
    (h : n < l.length) : l.getD n d ∈ l := by
  rw [List.getD_eq_get?, List.get?_eq_get h]
  exact List.get_mem l n h

theorem strictAsc_tail {a : Nat} {l : List Nat} (h : StrictAsc (a :: l)) :
    StrictAsc l := by
  intro k hk
  have := h (k + 1) (by simp at hk ⊢; omega)
  simpa using this

theorem linearLookup_of_get? {N : Type} :
    ∀ (s : List Nat) (d : List N) (i t : Nat), StrictAsc s →
    s.get? i = some t → s.length = d.length →
    linearLookup s d t = d.get? i := by
  intro s
  induction s with
  | nil => intro d i t _ h; simp at h
  | cons a as ih =>
    intro d i t hasc hget hlen
    cases d with
    | nil => simp at hlen
    | cons v vs =>
      cases i with
      | zero =>
        simp only [List.get?] at hget
        injection hget with hget
        subst hget
        simp [linearLookup]
      | succ i =>
        simp only [List.get?] at hget
        have hti : t ∈ as := List.get?_mem hget
        have hilen : i < as.length := by
          by_contra hc
          push_neg at hc
          rw [List.get?_eq_none.mpr hc] at hget
          exact absurd hget (by simp)
        have hat : a < t := by
          have h0 : (a :: as).getD 0 0 < (a :: as).getD (i + 1) 0 :=
            strictAsc_getD_lt hasc 0 (i + 1) (by omega) (by simp; omega)
          have : (a :: as).getD (i + 1) 0 = as.getD i 0 := by simp
          rw [this] at h0
          have : as.getD i 0 = t := by
            rw [List.getD_eq_get? ]
            rw [hget]
            rfl
          rw [this] at h0
          simpa using h0
        rw [linearLookup, if_neg (by omega)]
        exact ih vs i t (strictAsc_tail hasc) hget (by simpa using hlen)

theorem linearLookup_of_not_mem {N : Type} :
    ∀ (s : List Nat) (d : List N) (t : Nat),
    (∀ k < s.length, s.getD k 0 ≠ t) → linearLookup s d t = none := by
  intro s
  induction s with
  | nil =>
    intro d t _
    cases d <;> rfl
  | cons a as ih =>
    intro d t h
    cases d with
    | nil => rfl
    | cons v vs =>
      rw [linearLookup, if_neg (by simpa using h 0 (by simp))]
      exact ih vs t (fun k hk => by simpa using h (k + 1) (by simp; omega))

/-! ### Lookup characterization -/

theorem at_outer_inner_eq_storedValue {N : Type} (m : CsMat N)
    (outer inner : Nat)
    (houter : outer + 1 < m.indptr.length)
    (hlen : m.indices.length = m.data.length)
    (hbound : ∀ x ∈ m.indptr, x ≤ m.indices.length)
    (hasc : StrictAsc (listSlice m.indices (m.indptr.getD outer 0)
      (m.indptr.getD (outer + 1) 0))) :
    m.at_outer_inner outer inner =
      Except.ok (m.storedValue outer inner) := by
  have hb : m.indptr.get? outer = some (m.indptr.getD outer 0) :=
    get?_eq_getD 0 (by omega)
  have he : m.indptr.get? (outer + 1) = some (m.indptr.getD (outer + 1) 0) :=
    get?_eq_getD 0 houter
  set b := m.indptr.getD outer 0 with hbdef
  set e := m.indptr.getD (outer + 1) 0 with hedef
  have heb : e ≤ m.indices.length :=
    hbound e (hedef ▸ getD_mem m.indptr (outer + 1) 0 houter)
  rw [CsMat.at_outer_inner, hb, he]
  simp only
  by_cases hbe : b ≥ e
  · rw [if_pos hbe]
    have hslice : listSlice m.indices b e = [] := by
      have : e - b = 0 := by omega
      simp [listSlice, this]
    rw [CsMat.storedValue]
    simp only [← hbdef, ← hedef, hslice]
    cases listSlice m.data b e <;> rfl
  · rw [if_neg hbe]
    push_neg at hbe
    rw [if_pos heb, if_pos (hlen ▸ heb)]
    set s := listSlice m.indices b e with hsdef
    set d := listSlice m.data b e with hddef
    have hslen : s.length = e - b := by
      rw [hsdef, listSlice_length]
      omega
    have hdlen : d.length = e - b := by
      rw [hddef, listSlice_length]
      omega
    rw [CsMat.storedValue]
    simp only [← hbdef, ← hedef, ← hsdef, ← hddef]
    cases hbs : binarySearch s inner with
    | some pos =>
      obtain ⟨_, hpos, hval⟩ := bsAux_sound s inner _ _ _ _ hbs
      have hposlen : pos < s.length := by
        rw [binarySearch] at hbs
        obtain ⟨_, h2, _⟩ := bsAux_sound s inner _ _ _ _ hbs
        omega
      have hlk : linearLookup s d inner = d.get? pos :=
        linearLookup_of_get? s d pos inner hasc
          (by rw [get?_eq_getD 0 hposlen, hval]) (by omega)
      obtain ⟨v, hv⟩ : ∃ v, d.get? pos = some v := by
        cases hg : d.get? pos with
        | none =>
          have := List.get?_eq_none.mp hg
          omega
        | some v => exact ⟨v, rfl⟩
      simp only [hlk, hv]
    | none =>
      have hnm : ∀ k < s.length, s.getD k 0 ≠ inner := by
        intro k hk hkt
        exact bsAux_complete s inner hasc s.length 0 s.length
          (Nat.le_refl _) (Nat.le_refl _) ⟨k, Nat.zero_le k, hk, hkt⟩ hbs
      rw [linearLookup_of_not_mem s d inner hnm]

/-! ### Validator characterization -/

theorem outer_iterator_item {N : Type} (m : CsMat N) (p : Perm) (k : Nat) :
    (m.outer_iterator_papt p).item k =
      ((match m.storage with | CSR => p | CSC => Perm.inv p).atIdx k,
       { indices := listSlice m.indices (m.indptr.getD k 0)
           (m.indptr.getD (k + 1) 0),
         data := listSlice m.data (m.indptr.getD k 0)
           (m.indptr.getD (k + 1) 0),
         perm := match m.storage with | CSR => p | CSC => Perm.inv p }) :=
  rfl

theorem collectFwd_outer_iterator_papt {N : Type} (m : CsMat N) (p : Perm) :
    collectFwd (m.outer_iterator_papt p) =
      (List.range' 0 (m.indptr.length - 1)).map
        (m.outer_iterator_papt p).item := by
  rw [collectFwd_eq_map]
  rfl

theorem mem_collectFwd_papt {N : Type} (m : CsMat N) (p : Perm)
    (q : Nat × CsVec N) :
    q ∈ collectFwd (m.outer_iterator_papt p) ↔
      ∃ k < m.indptr.length - 1, q = (m.outer_iterator_papt p).item k := by
  rw [collectFwd_outer_iterator_papt, List.mem_map]
  constructor
  · rintro ⟨k, hk, rfl⟩
    rw [List.mem_range'_1] at hk
    exact ⟨k, by omega, rfl⟩
  · rintro ⟨k, hk, rfl⟩
    exact ⟨k, List.mem_range'_1.mpr (by omega), rfl⟩

theorem check_ok_facts {N : Type} {m : CsMat N} {k : Nat}
    (h : m.check_compressed_structure = CheckOutcome.ok k) :
    ValidFacts m ∧ m.indices ≠ [] ∧ k = m.indices.length := by
  rw [CsMat.check_compressed_structure] at h
  by_cases h1 : m.indptr.length ≠ m.outerDim + 1
  · rw [if_pos h1] at h
    exact absurd h (by simp)
  rw [if_neg h1] at h
  push_neg at h1
  by_cases h2 : m.indices.length ≠ m.data.length
  · rw [if_pos h2] at h
    exact absurd h (by simp)
  rw [if_neg h2] at h
  push_neg at h2
  by_cases h3 : m.indices.length ≠ m.nnz
  · rw [if_pos h3] at h
    exact absurd h (by simp)
  rw [if_neg h3] at h
  push_neg at h3
  cases hmp : maxOfList m.indptr with
  | none =>
    rw [hmp] at h
    exact absurd h (by simp)
  | some mxp =>
  rw [hmp] at h
  simp only at h
  by_cases h4 : mxp > m.indices.length
  · rw [if_pos h4] at h
    exact absurd h (by simp)
  rw [if_neg h4] at h
  push_neg at h4
  cases hmi : maxOfList m.indices with
  | none =>
    rw [hmi] at h
    exact absurd h (by simp)
  | some mxi =>
  rw [hmi] at h
  simp only at h
  by_cases h5 : mxi ≥ m.innerDim
  · rw [if_pos h5] at h
    exact absurd h (by simp)
  rw [if_neg h5] at h
  push_neg at h5
  by_cases h6 : ¬ (adjacentLE m.indptr = true)
  · rw [if_pos h6] at h
    exact absurd h (by simp)
  rw [if_neg h6] at h
  push_neg at h6
  by_cases h7 : ¬ ((collectFwd m.outer_iterator).all
      (fun p => p.2.check_structure) = true)
  · rw [if_pos h7] at h
    exact absurd h (by simp)
  rw [if_neg h7] at h
  push_neg at h7
  have hk : k = m.indices.length := by
    injection h with h
    exact h.symm
  have hne : m.indices ≠ [] := by
    intro hnil
    rw [hnil] at hmi
    exact absurd hmi (by simp [maxOfList])
  refine ⟨⟨h1, h2, h3, ?_, ?_, ?_, ?_⟩, hne, hk⟩
  · intro x hx
    exact Nat.le_trans (maxOfList_le hmp x hx) (by omega)
  · intro x hx
    exact Nat.lt_of_le_of_lt (maxOfList_le hmi x hx) (by omega)
  · exact (adjacentLE_iff m.indptr).mp h6
  · intro j hj
    have hmem : (m.outer_iterator).item j ∈ collectFwd m.outer_iterator :=
      (mem_collectFwd_papt m m.perm_identity _).mpr ⟨j, hj, rfl⟩
    have := List.all_eq_true.mp h7 _ hmem
    rw [CsMat.outer_iterator, outer_iterator_item] at this
    simp only [CsVec.check_structure] at this
    exact (strictAscB_iff _).mp this

theorem facts_check_ok {N : Type} {m : CsMat N} (hv : ValidFacts m)
    (hne : m.indices ≠ []) :
    m.check_compressed_structure = CheckOutcome.ok m.indices.length := by
  obtain ⟨f1, f2, f3, f4, f5, f6, f7⟩ := hv
  rw [CsMat.check_compressed_structure]
  rw [if_neg (fun hc => hc f1), if_neg (fun hc => hc f2),
    if_neg (fun hc => hc f3)]
  have hipne : m.indptr ≠ [] := by
    intro hh
    rw [hh] at f1
    simp at f1
  obtain ⟨mxp, hmp⟩ := maxOfList_of_ne_nil hipne
  rw [hmp]
  simp only
  rw [if_neg (Nat.not_lt.mpr (f4 mxp (maxOfList_mem hmp)))]
  obtain ⟨mxi, hmi⟩ := maxOfList_of_ne_nil hne
  rw [hmi]
  simp only
  rw [if_neg (Nat.not_le.mpr (f5 mxi (maxOfList_mem hmi)))]
  rw [if_neg (not_not_intro ((adjacentLE_iff m.indptr).mpr f6))]
  rw [if_neg (not_not_intro (List.all_eq_true.mpr ?_))]
  intro q hq
  obtain ⟨j, hj, rfl⟩ := (mem_collectFwd_papt m m.perm_identity q).mp hq
  rw [outer_iterator_item]
  simp only [CsVec.check_structure]
  exact (strictAscB_iff _).mpr (f7 j hj)

/-! ### Construction characterization -/

theorem from_slices_ok_some {N : Type} {st : CompressedStorage}
    {nr nc : Nat} {ip ix : List Nat} {d : List N} {m : CsMat N}
    (h : CsMat.from_slices st nr nc ip ix d = Except.ok (some m)) :
    m = mkMat st nr nc ip ix d ∧ ValidFacts m ∧ m.indices ≠ [] := by
  rw [CsMat.from_slices] at h
  cases hc : (mkMat st nr nc ip ix d).check_compressed_structure with
  | ok k =>
    rw [hc] at h
    simp only [Except.ok.injEq, Option.some.injEq] at h
    obtain ⟨hv, hne, _⟩ := check_ok_facts hc
    exact ⟨h.symm, h ▸ hv, h ▸ hne⟩
  | fail dg =>
    rw [hc] at h
    simp at h
  | panicked msg =>
    rw [hc] at h
    simp at h

theorem from_slices_of_facts {N : Type} (st : CompressedStorage)
    (nr nc : Nat) (ip ix : List Nat) (d : List N)
    (hv : ValidFacts (mkMat st nr nc ip ix d)) (hne : ix ≠ []) :
    CsMat.from_slices st nr nc ip ix d =
      Except.ok (some (mkMat st nr nc ip ix d)) := by
  rw [CsMat.from_slices, facts_check_ok hv hne]

theorem from_slices_fail_iff {N : Type} (st : CompressedStorage)
    (nr nc : Nat) (ip ix : List Nat) (d : List N) :
    CsMat.from_slices st nr nc ip ix d = Except.ok none ↔
      ∃ dg, (mkMat st nr nc ip ix d).check_compressed_structure =
        CheckOutcome.fail dg := by
  rw [CsMat.from_slices]
  cases hc : (mkMat st nr nc ip ix d).check_compressed_structure with
  | ok k => simp
  | fail dg => simp
  | panicked msg => simp

theorem check_fail_diag {N : Type} (m : CsMat N) (dg : String)
    (h : m.check_compressed_structure = CheckOutcome.fail dg) :
    dg ∈ sevenDiagnostics := by
  rw [CsMat.check_compressed_structure] at h
  split at h
  · injection h with h
    subst h
    decide
  split at h
  · injection h with h
    subst h
    decide
  split at h
  · injection h with h
    subst h
    decide
  rename_i h1 h2 h3
  cases hmp : maxOfList m.indptr with
  | none =>
    rw [hmp] at h
    simp at h
  | some mxp =>
  rw [hmp] at h
  simp only at h
  split at h
  · injection h with h
    subst h
    decide
  cases hmi : maxOfList m.indices with
  | none =>
    rw [hmi] at h
    simp at h
  | some mxi =>
  rw [hmi] at h
  simp only at h
  split at h
  · injection h with h
    subst h
    decide
  split at h
  · injection h with h
    subst h
    decide
  split at h
  · injection h with h
    subst h
    decide
  simp at h

/-! ### Indexed access into the collected iterator -/

theorem collectFwd_papt_length {N : Type} (m : CsMat N) (p : Perm) :
    (collectFwd (m.outer_iterator_papt p)).length = m.indptr.length - 1 := by
  rw [collectFwd_outer_iterator_papt]
  simp

theorem collectFwd_papt_get? {N : Type} (m : CsMat N) (p : Perm) (k : Nat)
    (hk : k < m.indptr.length - 1) :
    (collectFwd (m.outer_iterator_papt p)).get? k =
      some ((m.outer_iterator_papt p).item k) := by
  rw [collectFwd_outer_iterator_papt, List.get?_map, List.get?_range' 0 1 hk]
  simp

/-! ### Telescoping sum of the view lengths -/

theorem adj_mono (ip : List Nat) (lo hi : Nat)
    (h : ∀ i, lo ≤ i → i < hi → ip.getD i 0 ≤ ip.getD (i + 1) 0) :
    ∀ n, lo + n ≤ hi → ip.getD lo 0 ≤ ip.getD (lo + n) 0 := by
  intro n
  induction n with
  | zero => intro _; exact Nat.le_refl _
  | succ n ih =>
    intro hn
    have h1 : ip.getD lo 0 ≤ ip.getD (lo + n) 0 := ih (by omega)
    have h2 : ip.getD (lo + n) 0 ≤ ip.getD (lo + n + 1) 0 :=
      h (lo + n) (by omega) (by omega)
    have : lo + (n + 1) = lo + n + 1 := by omega
    rw [this]
    exact Nat.le_trans h1 h2

theorem telescope_sum (ip : List Nat) :
    ∀ (n s : Nat),
    (∀ i, s ≤ i → i < s + n → ip.getD i 0 ≤ ip.getD (i + 1) 0) →
    ((List.range' s n).map (fun k => ip.getD (k + 1) 0 - ip.getD k 0)).sum =
      ip.getD (s + n) 0 - ip.getD s 0 := by
  intro n
  induction n with
  | zero =>
    intro s _
    simp
  | succ n ih =>
    intro s h
    rw [List.range'_succ, List.map_cons, List.sum_cons]
    rw [ih (s + 1) (fun i h1 h2 => h i (by omega) (by omega))]
    have ha : ip.getD s 0 ≤ ip.getD (s + 1) 0 := h s (by omega) (by omega)
    have hb : ip.getD (s + 1) 0 ≤ ip.getD (s + 1 + n) 0 :=
      adj_mono ip (s + 1) (s + 1 + n)
        (fun i h1 h2 => h i (by omega) (by omega)) n (by omega)
    have hc : s + (n + 1) = s + 1 + n := by omega
    rw [hc]
    omega

theorem sum_view_lengths {N : Type} (m : CsMat N) (p : Perm)
    (hv : ValidFacts m) :
    ((collectFwd (m.outer_iterator_papt p)).map
      (fun q => q.2.indices.length)).sum =
      m.indptr.getD (m.indptr.length - 1) 0 - m.indptr.getD 0 0 := by
  obtain ⟨f1, f2, f3, f4, f5, f6, f7⟩ := hv
  rw [collectFwd_outer_iterator_papt, List.map_map]
  have hcong : (List.range' 0 (m.indptr.length - 1)).map
      ((fun q : Nat × CsVec N => q.2.indices.length) ∘
        (m.outer_iterator_papt p).item) =
      (List.range' 0 (m.indptr.length - 1)).map
        (fun k => m.indptr.getD (k + 1) 0 - m.indptr.getD k 0) := by
    apply List.map_congr_left
    intro k hk
    rw [List.mem_range'_1] at hk
    have hk2 : k < m.indptr.length - 1 := by omega
    simp only [Function.comp_apply, outer_iterator_item]
    simp only [listSlice_length]
    have hble : m.indptr.getD k 0 ≤ m.indptr.getD (k + 1) 0 := f6 k hk2
    have hein : m.indptr.getD (k + 1) 0 ≤ m.indices.length :=
      f4 _ (getD_mem m.indptr (k + 1) 0 (by omega))
    omega
  rw [hcong]
  have := telescope_sum m.indptr (m.indptr.length - 1) 0
    (fun i h1 h2 => f6 i (by omega))
  simpa using this

/-! ### Lookup under validity -/

theorem at_valid {N : Type} (m : CsMat N) (hv : ValidFacts m)
    (i j : Nat) (hi : i < m.nrows) (hj : j < m.ncols) :
    m.atIJ i j = Except.ok
      (match m.storage with
       | CSR => m.storedValue i j
       | CSC => m.storedValue j i) := by
  obtain ⟨f1, f2, f3, f4, f5, f6, f7⟩ := hv
  rw [CsMat.atIJ, if_pos hi, if_pos hj]
  cases hst : m.storage with
  | CSR =>
    have houter : m.outerDim = m.nrows := by
      rw [CsMat.outerDim, hst]
    apply at_outer_inner_eq_storedValue m i j
    · omega
    · exact f2
    · exact f4
    · exact f7 i (by omega)
  | CSC =>
    have houter : m.outerDim = m.ncols := by
      rw [CsMat.outerDim, hst]
    apply at_outer_inner_eq_storedValue m j i
    · omega
    · exact f2
    · exact f4
    · exact f7 j (by omega)

/-! ### Spec invariants versus validator facts -/

theorem specInvariants_iff_validFacts {N : Type} (st : CompressedStorage)
    (nr nc : Nat) (ip ix : List Nat) (d : List N) :
    SpecInvariants st nr nc ip ix d ↔ ValidFacts (mkMat st nr nc ip ix d) := by
  cases st with
  | CSR =>
    simp only [SpecInvariants, specInv1, specInv2, specInv3, specInv4,
      specInv5, specInv6, ValidFacts, CsMat.outerDim, CsMat.innerDim, mkMat,
      outerDimOf, innerDimOf]
    constructor
    · rintro ⟨i1, i2, i3, i4, i5, i6⟩
      refine ⟨i1, i2, i2, ?_, i4, i5, ?_⟩
      · intro x hx
        rw [i2]
        exact i3 x hx
      · intro k hk
        exact i6 k (by omega)
    · rintro ⟨f1, f2, f3, f4, f5, f6, f7⟩
      refine ⟨f1, f2, ?_, f5, f6, ?_⟩
      · intro x hx
        rw [← f2]
        exact f4 x hx
      · intro k hk
        exact f7 k (by omega)
  | CSC =>
    simp only [SpecInvariants, specInv1, specInv2, specInv3, specInv4,
      specInv5, specInv6, ValidFacts, CsMat.outerDim, CsMat.innerDim, mkMat,
      outerDimOf, innerDimOf]
    constructor
    · rintro ⟨i1, i2, i3, i4, i5, i6⟩
      refine ⟨i1, i2, i2, ?_, i4, i5, ?_⟩
      · intro x hx
        rw [i2]
        exact i3 x hx
      · intro k hk
        exact i6 k (by omega)
    · rintro ⟨f1, f2, f3, f4, f5, f6, f7⟩
      refine ⟨f1, f2, ?_, f5, f6, ?_⟩
      · intro x hx
        rw [← f2]
        exact f4 x hx
      · intro k hk
        exact f7 k (by omega)

/-! ### Claim theorems -/

/-- C1 (counterexample): an input on which all six structural invariants
hold (empty `indices`/`data`, `indptr` all zeros of length `outer_dim+1`)
yet `from_slices` yields no matrix: validation panics on unwrapping
`max()` of the empty `indices`.  So construction success is not
equivalent to the invariants alone. -/
theorem construction_iff_invariants_cex :
    SpecInvariants CSR 1 1 [0, 0] [] ([] : List Nat) ∧
    CsMat.from_slices CSR 1 1 [0, 0] [] ([] : List Nat) =
      Except.error unwrapNoneMsg := by
  constructor
  · decide
  · decide

/-- C1 (amended): for every input, `from_slices` yields a matrix exactly
when the six structural invariants hold AND at least one entry is stored
(`indices` nonempty); `from_vecs` behaves identically to `from_slices`. -/
theorem construction_ok_iff_invariants {N : Type} (st : CompressedStorage)
    (nr nc : Nat) (ip ix : List Nat) (d : List N) :
    ((∃ m, CsMat.from_slices st nr nc ip ix d = Except.ok (some m)) ↔
      SpecInvariants st nr nc ip ix d ∧ ix ≠ []) ∧
    CsMat.from_vecs st nr nc ip ix d = CsMat.from_slices st nr nc ip ix d := by
  constructor
  · constructor
    · rintro ⟨m, hm⟩
      obtain ⟨hmk, hv, hne⟩ := from_slices_ok_some hm
      subst hmk
      exact ⟨(specInvariants_iff_validFacts st nr nc ip ix d).mpr hv, hne⟩
    · rintro ⟨hinv, hne⟩
      exact ⟨mkMat st nr nc ip ix d,
        from_slices_of_facts st nr nc ip ix d
          ((specInvariants_iff_validFacts st nr nc ip ix d).mp hinv) hne⟩
  · rw [CsMat.from_vecs, CsMat.from_slices]

/-- C5 (counterexample): two inputs violating different invariants (the
first violates the indptr-length invariant and satisfies indptr
sortedness, the second the converse) both make construction return the
same bare `None`: the construction result carries no `StructuralError`
kind distinguishing which invariant failed. -/
theorem error_kind_cex :
    ¬ specInv1 CSR 3 3 [0, 1, 2] ∧ specInv5 [0, 1, 2] ∧
    specInv1 CSR 3 3 [0, 2, 1, 3] ∧ ¬ specInv5 [0, 2, 1, 3] ∧
    CsMat.from_slices CSR 3 3 [0, 1, 2] [0, 1, 2] ([1, 1, 1] : List Nat) =
      Except.ok none ∧
    CsMat.from_slices CSR 3 3 [0, 2, 1, 3] [0, 1, 2] ([1, 1, 1] : List Nat) =
      Except.ok none := by
  refine ⟨by decide, by decide, by decide, by decide, by decide, by decide⟩

/-- C5 (amended): construction failure returns a bare `None`; the
invariant that failed is identified only by the diagnostic the validator
prints, one of seven pairwise distinct messages, one per check. -/
theorem validation_diagnostics {N : Type} :
    sevenDiagnostics.Nodup ∧
    ∀ (st : CompressedStorage) (nr nc : Nat) (ip ix : List Nat)
      (d : List N),
      CsMat.from_slices st nr nc ip ix d = Except.ok none →
      ∃ dg ∈ sevenDiagnostics,
        (mkMat st nr nc ip ix d).check_compressed_structure =
          CheckOutcome.fail dg := by
  constructor
  · decide
  · intro st nr nc ip ix d h
    obtain ⟨dg, hdg⟩ := (from_slices_fail_iff st nr nc ip ix d).mp h
    exact ⟨dg, check_fail_diag _ _ hdg, hdg⟩

/-- C5 (witness): a concrete failing construction for which the validator
fails with one of the seven diagnostics. -/
theorem validation_diagnostics_witness :
    ∃ dg ∈ sevenDiagnostics,
      (mkMat CSR 3 3 [0, 1, 2] [0, 1, 2]
        ([1, 1, 1] : List Nat)).check_compressed_structure =
        CheckOutcome.fail dg :=
  (@validation_diagnostics Nat).2 CSR 3 3 [0, 1, 2] [0, 1, 2] [1, 1, 1]
    (by decide)

/-- C10 (counterexample): an input with empty `indices` and `data` whose
`indptr` passes the length check (`[0, 1]`, length `outer_dim + 1`) on
which validation does NOT panic: the `max(indptr)` bound check fails
first and construction returns an ordinary `None`. -/
theorem empty_construction_cex :
    [0, 1].length = 1 + 1 ∧
    CsMat.from_slices CSR 1 1 [0, 1] [] ([] : List Nat) = Except.ok none := by
  constructor
  · decide
  · decide

/-- C10 (amended): with empty `indices` and `data`, validation panics
(unwrap of `None` from `max()` on the empty `indices`) whenever `indptr`
passes both the length check and the `max(indptr) <= nnz` check (e.g. all
zeros); and no matrix with empty `indices` can ever be built through
`from_slices`. -/
theorem empty_construction_amended {N : Type} :
    (∀ (st : CompressedStorage) (nr nc : Nat) (ip : List Nat),
      ip.length = outerDimOf st nr nc + 1 →
      (∀ x ∈ ip, x = 0) →
      CsMat.from_slices st nr nc ip [] ([] : List N) =
        Except.error unwrapNoneMsg) ∧
    (∀ (st : CompressedStorage) (nr nc : Nat) (ip ix : List Nat)
      (d : List N), ix = [] →
      ∀ m, CsMat.from_slices st nr nc ip ix d ≠ Except.ok (some m)) := by
  constructor
  · intro st nr nc ip h1 h0
    rw [CsMat.from_slices]
    have hck : (mkMat st nr nc ip [] ([] : List N)).check_compressed_structure
        = CheckOutcome.panicked unwrapNoneMsg := by
      rw [CsMat.check_compressed_structure, mkMat_outerDim]
      simp only [mkMat_indptr, mkMat_indices, mkMat_data, mkMat_nnz]
      rw [if_neg (fun hc => hc h1)]
      rw [if_neg (fun hc => hc rfl)]
      rw [if_neg (fun hc => hc rfl)]
      have hipne : ip ≠ [] := by
        intro hh
        rw [hh] at h1
        simp at h1
      obtain ⟨mxp, hmp⟩ := maxOfList_of_ne_nil hipne
      rw [hmp]
      simp only
      rw [if_neg (by
        have := h0 mxp (maxOfList_mem hmp)
        omega)]
      rfl
    rw [hck]
  · intro st nr nc ip ix d hix m hm
    obtain ⟨hmk, _, hne⟩ := from_slices_ok_some hm
    subst hmk
    exact hne hix

/-- C10 (witness): the all-zero `indptr` of length 2 with empty
`indices`/`data` makes construction panic. -/
theorem empty_construction_amended_witness :
    CsMat.from_slices CSR 1 1 [0, 0] [] ([] : List Nat) =
      Except.error unwrapNoneMsg :=
  (@empty_construction_amended Nat).1 CSR 1 1 [0, 0] (by decide) (by decide)

/-- C2: on a validly constructed matrix, for in-range `(i, j)` the point
lookup maps `(i, j)` to `(outer, inner)` according to the storage order,
binary-searches the sorted inner slice, and returns exactly the
reference linear scan of the stored entries: the stored value when
`(i, j)` is explicitly stored, `none` when it is absent (including when
the whole outer slice is empty). -/
theorem lookup_correct {N : Type} (st : CompressedStorage) (nr nc : Nat)
    (ip ix : List Nat) (d : List N) (m : CsMat N) (i j : Nat)
    (h : CsMat.from_slices st nr nc ip ix d = Except.ok (some m))
    (hi : i < m.nrows) (hj : j < m.ncols) :
    m.atIJ i j = Except.ok
      (match m.storage with
       | CSR => m.storedValue i j
       | CSC => m.storedValue j i) := by
  obtain ⟨_, hv, _⟩ := from_slices_ok_some h
  exact at_valid m hv i j hi hj

/-- C2 (witness): the 3 by 3 identity matrix scenario at entry (1, 1). -/
theorem lookup_correct_witness :
    CsMat.from_slices CSR 3 3 [0, 1, 2, 3] [0, 1, 2] ([10, 20, 30] : List Nat)
        = Except.ok (some (mkMat CSR 3 3 [0, 1, 2, 3] [0, 1, 2] [10, 20, 30]))
      ∧
    (mkMat CSR 3 3 [0, 1, 2, 3] [0, 1, 2] ([10, 20, 30] : List Nat)).atIJ 1 1
        = Except.ok
          (match (mkMat CSR 3 3 [0, 1, 2, 3] [0, 1, 2]
              ([10, 20, 30] : List Nat)).storage with
           | CSR => (mkMat CSR 3 3 [0, 1, 2, 3] [0, 1, 2]
              ([10, 20, 30] : List Nat)).storedValue 1 1
           | CSC => (mkMat CSR 3 3 [0, 1, 2, 3] [0, 1, 2]
              ([10, 20, 30] : List Nat)).storedValue 1 1) :=
  ⟨by decide,
   lookup_correct CSR 3 3 [0, 1, 2, 3] [0, 1, 2] [10, 20, 30]
     (mkMat CSR 3 3 [0, 1, 2, 3] [0, 1, 2] [10, 20, 30]) 1 1 (by decide)
     (by decide) (by decide)⟩

/-- C8: the point lookup asserts its preconditions in order: `i` out of
range fails with the row assertion, otherwise `j` out of range fails with
the column assertion, and for in-range coordinates both assertions pass
and the lookup delegates to the outer/inner lookup with the
storage-dependent coordinate mapping. -/
theorem lookup_precondition {N : Type} (m : CsMat N) (i j : Nat) :
    (¬ i < m.nrows → m.atIJ i j = Except.error assertRowMsg) ∧
    (i < m.nrows → ¬ j < m.ncols →
      m.atIJ i j = Except.error assertColMsg) ∧
    (i < m.nrows → j < m.ncols →
      m.atIJ i j =
        match m.storage with
        | CSR => m.at_outer_inner i j
        | CSC => m.at_outer_inner j i) := by
  refine ⟨?_, ?_, ?_⟩
  · intro hi
    rw [CsMat.atIJ, if_neg hi]
  · intro hi hj
    rw [CsMat.atIJ, if_pos hi, if_neg hj]
  · intro hi hj
    rw [CsMat.atIJ, if_pos hi, if_pos hj]

/-- C8 (witness): on the 3 by 3 identity matrix, row index 5 trips the
row assertion, and in-range (1, 1) passes both assertions and delegates. -/
theorem lookup_precondition_witness :
    (mkMat CSR 3 3 [0, 1, 2, 3] [0, 1, 2] ([1, 1, 1] : List Nat)).atIJ 5 0
        = Except.error assertRowMsg ∧
    (mkMat CSR 3 3 [0, 1, 2, 3] [0, 1, 2] ([1, 1, 1] : List Nat)).atIJ 1 1
        = (match (mkMat CSR 3 3 [0, 1, 2, 3] [0, 1, 2]
            ([1, 1, 1] : List Nat)).storage with
           | CSR => (mkMat CSR 3 3 [0, 1, 2, 3] [0, 1, 2]
              ([1, 1, 1] : List Nat)).at_outer_inner 1 1
           | CSC => (mkMat CSR 3 3 [0, 1, 2, 3] [0, 1, 2]
              ([1, 1, 1] : List Nat)).at_outer_inner 1 1) :=
  ⟨(lookup_precondition (mkMat CSR 3 3 [0, 1, 2, 3] [0, 1, 2] [1, 1, 1])
      5 0).1 (by decide),
   (lookup_precondition (mkMat CSR 3 3 [0, 1, 2, 3] [0, 1, 2] [1, 1, 1])
      1 1).2.2 (by decide) (by decide)⟩

/-- C9: on a validly constructed matrix, an in-range point lookup never
panics — every internal access (`indptr[outer]`, `indptr[outer+1]`, the
`indices`/`data` slicing, and `data[position]` after a successful binary
search) is in bounds, so the lookup always returns a normal result. -/
theorem lookup_no_panic {N : Type} (st : CompressedStorage) (nr nc : Nat)
    (ip ix : List Nat) (d : List N) (m : CsMat N) (i j : Nat)
    (h : CsMat.from_slices st nr nc ip ix d = Except.ok (some m))
    (hi : i < m.nrows) (hj : j < m.ncols) :
    ∃ r, m.atIJ i j = Except.ok r := by
  obtain ⟨_, hv, _⟩ := from_slices_ok_some h
  exact ⟨_, at_valid m hv i j hi hj⟩

/-- C9 (witness): an in-range lookup on a concretely constructed matrix
returns a normal result. -/
theorem lookup_no_panic_witness :
    ∃ r, (mkMat CSR 5 5 [0, 3, 3, 5, 6, 7] [1, 2, 3, 2, 3, 4, 4]
      ([1, 2, 3, 4, 5, 6, 7] : List Nat)).atIJ 1 4 = Except.ok r :=
  lookup_no_panic CSR 5 5 [0, 3, 3, 5, 6, 7] [1, 2, 3, 2, 3, 4, 4]
    [1, 2, 3, 4, 5, 6, 7]
    (mkMat CSR 5 5 [0, 3, 3, 5, 6, 7] [1, 2, 3, 2, 3, 4, 4]
      [1, 2, 3, 4, 5, 6, 7]) 1 4 (by decide) (by decide) (by decide)

/-- C3: on a constructed matrix, the permuted outer iterator applies the
permutation directly when storage is row-major (the item at position `k`
carries index `p.at(k)`) and applies the inverse permutation when storage
is column-major (the item at position `k` carries `p.inverse().at(k)`). -/
theorem permuted_orientation {N : Type} (st : CompressedStorage)
    (nr nc : Nat) (ip ix : List Nat) (d : List N) (m : CsMat N)
    (p : Perm) (k : Nat)
    (h : CsMat.from_slices st nr nc ip ix d = Except.ok (some m))
    (hk : k < m.indptr.length - 1) :
    ((collectFwd (m.outer_iterator_papt p)).get? k).map Prod.fst =
      some (match m.storage with
            | CSR => p.atIdx k
            | CSC => (Perm.inv p).atIdx k) := by
  rw [collectFwd_papt_get? m p k hk, Option.map_some', outer_iterator_item]
  cases m.storage <;> rfl

/-- C3 (witness): a column-major matrix iterated under a nontrivial
permutation yields the inverse permutation applied at position 1. -/
theorem permuted_orientation_witness :
    ((collectFwd ((mkMat CSC 4 3 [0, 2, 5, 6] [2, 3, 1, 2, 3, 3]
        ([1, 2, 3, 4, 5, 6] : List Nat)).outer_iterator_papt
        (Perm.finite [1, 2, 0] [2, 0, 1]))).get? 1).map Prod.fst =
      some (match (mkMat CSC 4 3 [0, 2, 5, 6] [2, 3, 1, 2, 3, 3]
            ([1, 2, 3, 4, 5, 6] : List Nat)).storage with
            | CSR => (Perm.finite [1, 2, 0] [2, 0, 1]).atIdx 1
            | CSC => (Perm.inv (Perm.finite [1, 2, 0] [2, 0, 1])).atIdx 1) :=
  permuted_orientation CSC 4 3 [0, 2, 5, 6] [2, 3, 1, 2, 3, 3]
    [1, 2, 3, 4, 5, 6]
    (mkMat CSC 4 3 [0, 2, 5, 6] [2, 3, 1, 2, 3, 3] [1, 2, 3, 4, 5, 6])
    (Perm.finite [1, 2, 0] [2, 0, 1]) 1 (by decide) (by decide)

/-- C4 (counterexample): a validly constructed matrix (`indptr =
[1, 1, 2]`, two stored entries) whose outer views have total length 1,
not `nnz = 2`: the sum of the yielded view lengths need not equal `nnz`
because the validator pins neither `indptr[0] = 0` nor
`indptr[outer_dim] = nnz`. -/
theorem iteration_nnz_sum_cex :
    CsMat.from_slices CSR 2 2 [1, 1, 2] [0, 1] ([5, 7] : List Nat) =
      Except.ok (some (mkMat CSR 2 2 [1, 1, 2] [0, 1] [5, 7])) ∧
    (mkMat CSR 2 2 [1, 1, 2] [0, 1] ([5, 7] : List Nat)).nnz = 2 ∧
    ((collectFwd (mkMat CSR 2 2 [1, 1, 2] [0, 1]
      ([5, 7] : List Nat)).outer_iterator).map
        (fun q => q.2.indices.length)).sum = 1 := by
  refine ⟨by decide, by decide, by decide⟩

/-- C4 (amended): on a validly constructed matrix, the unpermuted outer
iterator yields exactly `outer_dim` items, the item at position `k`
carries permuted index `k`, and the sum of the yielded view lengths
equals `indptr[outer_dim] - indptr[0]` (which equals `nnz` only when the
indptr range spans all stored entries). -/
theorem iteration_completeness_amended {N : Type} (st : CompressedStorage)
    (nr nc : Nat) (ip ix : List Nat) (d : List N) (m : CsMat N)
    (h : CsMat.from_slices st nr nc ip ix d = Except.ok (some m)) :
    (collectFwd m.outer_iterator).length = m.outerDim ∧
    (∀ k < m.outerDim,
      ((collectFwd m.outer_iterator).get? k).map Prod.fst = some k) ∧
    ((collectFwd m.outer_iterator).map (fun q => q.2.indices.length)).sum =
      m.indptr.getD m.outerDim 0 - m.indptr.getD 0 0 := by
  obtain ⟨hmk, hv, hne⟩ := from_slices_ok_some h
  have f1 : m.indptr.length = m.outerDim + 1 := hv.1
  have hL : m.indptr.length - 1 = m.outerDim := by omega
  refine ⟨?_, ?_, ?_⟩
  · rw [CsMat.outer_iterator, collectFwd_papt_length, hL]
  · intro k hk
    rw [CsMat.outer_iterator, collectFwd_papt_get? m _ k (by omega),
      Option.map_some', outer_iterator_item]
    subst hmk
    cases st <;> rfl
  · rw [CsMat.outer_iterator, sum_view_lengths m m.perm_identity hv, hL]

/-- C4 (witness): the 3 by 3 identity matrix — three items, index `k` at
position `k`, view lengths summing to `indptr[3] - indptr[0] = 3`. -/
theorem iteration_completeness_amended_witness :
    (collectFwd (mkMat CSR 3 3 [0, 1, 2, 3] [0, 1, 2]
        ([1, 1, 1] : List Nat)).outer_iterator).length =
      (mkMat CSR 3 3 [0, 1, 2, 3] [0, 1, 2]
        ([1, 1, 1] : List Nat)).outerDim ∧
    (∀ k < (mkMat CSR 3 3 [0, 1, 2, 3] [0, 1, 2]
        ([1, 1, 1] : List Nat)).outerDim,
      ((collectFwd (mkMat CSR 3 3 [0, 1, 2, 3] [0, 1, 2]
        ([1, 1, 1] : List Nat)).outer_iterator).get? k).map Prod.fst =
        some k) ∧
    ((collectFwd (mkMat CSR 3 3 [0, 1, 2, 3] [0, 1, 2]
        ([1, 1, 1] : List Nat)).outer_iterator).map
      (fun q => q.2.indices.length)).sum =
      (mkMat CSR 3 3 [0, 1, 2, 3] [0, 1, 2]
        ([1, 1, 1] : List Nat)).indptr.getD
        (mkMat CSR 3 3 [0, 1, 2, 3] [0, 1, 2]
          ([1, 1, 1] : List Nat)).outerDim 0 -
      (mkMat CSR 3 3 [0, 1, 2, 3] [0, 1, 2]
        ([1, 1, 1] : List Nat)).indptr.getD 0 0 :=
  iteration_completeness_amended CSR 3 3 [0, 1, 2, 3] [0, 1, 2] [1, 1, 1]
    (mkMat CSR 3 3 [0, 1, 2, 3] [0, 1, 2] [1, 1, 1]) (by decide)

/-- C6: on a validly constructed matrix, reverse collection of the outer
iterator is exactly the reversed forward collection — the same set of
(index, view) pairs — and reversal touches only the outer traversal
order: every yielded view keeps its indices in the original strictly
ascending order. -/
theorem reverse_iteration_symmetry {N : Type} (st : CompressedStorage)
    (nr nc : Nat) (ip ix : List Nat) (d : List N) (m : CsMat N)
    (h : CsMat.from_slices st nr nc ip ix d = Except.ok (some m)) :
    collectRev m.outer_iterator = (collectFwd m.outer_iterator).reverse ∧
    (∀ q : Nat × CsVec N,
      q ∈ collectRev m.outer_iterator ↔ q ∈ collectFwd m.outer_iterator) ∧
    (∀ q ∈ collectRev m.outer_iterator, StrictAsc q.2.indices) := by
  obtain ⟨hmk, hv, hne⟩ := from_slices_ok_some h
  refine ⟨collectRev_eq_reverse_collectFwd _, ?_, ?_⟩
  · intro q
    rw [collectRev_eq_reverse_collectFwd, List.mem_reverse]
  · intro q hq
    rw [collectRev_eq_reverse_collectFwd, List.mem_reverse,
      CsMat.outer_iterator] at hq
    obtain ⟨k, hk, rfl⟩ := (mem_collectFwd_papt m m.perm_identity q).mp hq
    rw [outer_iterator_item]
    exact hv.2.2.2.2.2.2 k hk

/-- C6 (witness): the matrix with an empty row — reverse collection is
the reversed forward collection, same membership, views sorted. -/
theorem reverse_iteration_symmetry_witness :
    collectRev (mkMat CSR 5 5 [0, 3, 3, 5, 6, 7] [1, 2, 3, 2, 3, 4, 4]
        ([1, 2, 3, 4, 5, 6, 7] : List Nat)).outer_iterator =
      (collectFwd (mkMat CSR 5 5 [0, 3, 3, 5, 6, 7] [1, 2, 3, 2, 3, 4, 4]
        ([1, 2, 3, 4, 5, 6, 7] : List Nat)).outer_iterator).reverse ∧
    (∀ q : Nat × CsVec Nat,
      q ∈ collectRev (mkMat CSR 5 5 [0, 3, 3, 5, 6, 7] [1, 2, 3, 2, 3, 4, 4]
          ([1, 2, 3, 4, 5, 6, 7] : List Nat)).outer_iterator ↔
      q ∈ collectFwd (mkMat CSR 5 5 [0, 3, 3, 5, 6, 7] [1, 2, 3, 2, 3, 4, 4]
          ([1, 2, 3, 4, 5, 6, 7] : List Nat)).outer_iterator) ∧
    (∀ q ∈ collectRev (mkMat CSR 5 5 [0, 3, 3, 5, 6, 7] [1, 2, 3, 2, 3, 4, 4]
        ([1, 2, 3, 4, 5, 6, 7] : List Nat)).outer_iterator,
      StrictAsc q.2.indices) :=
  reverse_iteration_symmetry CSR 5 5 [0, 3, 3, 5, 6, 7]
    [1, 2, 3, 2, 3, 4, 4] [1, 2, 3, 4, 5, 6, 7]
    (mkMat CSR 5 5 [0, 3, 3, 5, 6, 7] [1, 2, 3, 2, 3, 4, 4]
      [1, 2, 3, 4, 5, 6, 7]) (by decide)

/-- C7: on a constructed matrix, the unpermuted outer iterator is the
permuted outer iterator invoked with the identity permutation — the
collected sequences coincide, in both traversal directions. -/
theorem identity_permutation_equiv {N : Type} (st : CompressedStorage)
    (nr nc : Nat) (ip ix : List Nat) (d : List N) (m : CsMat N)
    (h : CsMat.from_slices st nr nc ip ix d = Except.ok (some m)) :
    collectFwd m.outer_iterator =
      collectFwd (m.outer_iterator_papt Perm.id) ∧
    collectRev m.outer_iterator =
      collectRev (m.outer_iterator_papt Perm.id) := by
  obtain ⟨hmk, _, _⟩ := from_slices_ok_some h
  subst hmk
  exact ⟨rfl, rfl⟩

/-- C7 (witness): concrete coincidence of the two iterators on the 3 by 3
identity matrix. -/
theorem identity_permutation_equiv_witness :
    collectFwd (mkMat CSR 3 3 [0, 1, 2, 3] [0, 1, 2]
        ([1, 1, 1] : List Nat)).outer_iterator =
      collectFwd ((mkMat CSR 3 3 [0, 1, 2, 3] [0, 1, 2]
        ([1, 1, 1] : List Nat)).outer_iterator_papt Perm.id) ∧
    collectRev (mkMat CSR 3 3 [0, 1, 2, 3] [0, 1, 2]
        ([1, 1, 1] : List Nat)).outer_iterator =
      collectRev ((mkMat CSR 3 3 [0, 1, 2, 3] [0, 1, 2]
        ([1, 1, 1] : List Nat)).outer_iterator_papt Perm.id) :=
  identity_permutation_equiv CSR 3 3 [0, 1, 2, 3] [0, 1, 2] [1, 1, 1]
    (mkMat CSR 3 3 [0, 1, 2, 3] [0, 1, 2] [1, 1, 1]) (by decide)

/-- C1 (witness): the amended equivalence instantiated at the 3 by 3
identity scenario, where both sides hold. -/
theorem construction_ok_iff_invariants_witness :
    ((∃ m, CsMat.from_slices CSR 3 3 [0, 1, 2, 3] [0, 1, 2]
        ([1, 1, 1] : List Nat) = Except.ok (some m)) ↔
      SpecInvariants CSR 3 3 [0, 1, 2, 3] [0, 1, 2]
        ([1, 1, 1] : List Nat) ∧ [0, 1, 2] ≠ ([] : List Nat)) ∧
    CsMat.from_vecs CSR 3 3 [0, 1, 2, 3] [0, 1, 2] ([1, 1, 1] : List Nat) =
      CsMat.from_slices CSR 3 3 [0, 1, 2, 3] [0, 1, 2]
        ([1, 1, 1] : List Nat) :=
  construction_ok_iff_invariants CSR 3 3 [0, 1, 2, 3] [0, 1, 2] [1, 1, 1]
